import Mathlib

/-!
Shallow embedding of `jax/_src/scipy/ndimage.py` (the `map_coordinates`
implementation) and proofs about it.

Modelling conventions:
* Machine floating-point coordinate values are modelled as rationals `ℚ`
  with exact arithmetic; the source's index arithmetic on integers is
  modelled on `ℤ`.
* The `.astype(jnp.int32)` casts of the source are modelled explicitly by
  `toInt32` (two's-complement wrap-around, exact for numpy integer-dtype
  inputs).
* Python `%` (sign of the divisor) on a positive modulus coincides with
  Lean's Euclidean `%` on `ℤ`, and `jnp.floor_divide` with `Int.fdiv`.
* Arrays are modelled per output element: the kernel below computes the
  value of one output position from the point's per-axis coordinates,
  which is exactly how the vectorised source acts elementwise.
* Python exceptions (`ValueError`, `NotImplementedError`, and the
  `safe_zip` failure on zero arguments) are modelled with `Except String`.
-/

namespace JaxNdimage

/-- Models the `.astype(jnp.int32)` cast on an integer value: numpy integer
casts wrap around modulo `2 ^ 32` into the signed 32-bit range. -/
def toInt32 (n : ℤ) : ℤ := (n + 2 ^ 31) % 2 ^ 32 - 2 ^ 31

/-- Embeds `_mirror_index_fixer(index, size)`:
`jnp.abs((index + s) % (2 * s) - s)` where `s = size - 1` is the
half-wavelength of the triangular wave.  For `size = 1` the source reduces
an integer modulo `2 * s = 0`, which plain Python refuses and the jitted
accelerator leaves undefined; Lean's convention `a % 0 = a` stands in for
that undefined value. -/
def mirrorIndexFixer (index size : ℤ) : ℤ :=
  let s := size - 1
  |(index + s) % (2 * s) - s|

/-- Embeds `_reflect_index_fixer(index, size)`:
`jnp.floor_divide(_mirror_index_fixer(2*index+1, 2*size+1) - 1, 2)`. -/
def reflectIndexFixer (index size : ℤ) : ℤ :=
  Int.fdiv (mirrorIndexFixer (2 * index + 1) (2 * size + 1) - 1) 2

/-- Embeds `jnp.clip(index, lo, hi)` = `minimum(hi, maximum(lo, index))`. -/
def clip (x lo hi : ℤ) : ℤ := min (max x lo) hi

/-- Embeds the `_INDEX_FIXERS` dictionary: boundary mode name to index
fixer `fix (index) (size)`. -/
def INDEX_FIXERS : List (String × (ℤ → ℤ → ℤ)) :=
  [("constant", fun index _size => index),
   ("nearest", fun index size => clip index 0 (size - 1)),
   ("wrap", fun index size => index % size),
   ("mirror", mirrorIndexFixer),
   ("reflect", reflectIndexFixer)]

/-- Embeds `_INDEX_FIXERS.get(mode)` (dictionary lookup, `None` when the
mode is unsupported). -/
def getIndexFixer (mode : String) : Option (ℤ → ℤ → ℤ) :=
  (INDEX_FIXERS.find? (fun kv => kv.1 == mode)).map (fun kv => kv.2)

/-- Embeds `_round_half_away_from_zero` / `lax.round` (whose rounding
method is away-from-zero) as the integer the value rounds to.  On an
integer-dtype array the source returns the array unchanged, which agrees
with this function because rounding fixes integers. -/
def roundHalfAwayFromZero (q : ℚ) : ℤ :=
  if 0 ≤ q then ⌊q + 1 / 2⌋ else ⌈q - 1 / 2⌉

/-- Models the value-level effect of `jnp.asarray(cval, input.dtype)` for
an integer dtype: float-to-integer conversion truncates toward zero. -/
def truncInt (q : ℚ) : ℤ := if 0 ≤ q then ⌊q⌋ else ⌈q⌉

/-- Embeds `_nearest_indices_and_weights(coordinate)`: a single node
`(_round_half_away_from_zero(coordinate).astype(int32), 1)`; the weight is
the scalar one (`coordinate.dtype.type(1)`). -/
def nearestIndicesAndWeights (coordinate : ℚ) : List (ℤ × ℚ) :=
  [(toInt32 (roundHalfAwayFromZero coordinate), 1)]

/-- Embeds `_linear_indices_and_weights(coordinate)`: `lower = floor(c)`,
`upper_weight = c - lower`, `lower_weight = 1 - upper_weight`,
`index = lower.astype(int32)`, nodes `(index, lower_weight)` then
`(index + 1, upper_weight)`; the `+ 1` is int32 addition, hence the outer
`toInt32`. -/
def linearIndicesAndWeights (coordinate : ℚ) : List (ℤ × ℚ) :=
  let lower : ℤ := ⌊coordinate⌋
  let upper_weight : ℚ := coordinate - lower
  let lower_weight : ℚ := 1 - upper_weight
  let index : ℤ := toInt32 lower
  [(index, lower_weight), (toInt32 (index + 1), upper_weight)]

/-- Embeds the `order == 0 / order == 1 / else` dispatch choosing
`interp_fun` (`None` models the `NotImplementedError` branch). -/
def interpFunFor : ℕ → Option (ℚ → List (ℤ × ℚ))
  | 0 => some nearestIndicesAndWeights
  | 1 => some linearIndicesAndWeights
  | _ => none

/-- An N-dimensional array for the kernel: its shape, whether its dtype is
integer-valued, and its contents as a function of the multi-index. -/
structure NDArray where
  shape : List ℕ
  isInt : Bool
  data : List ℕ → ℚ

/-- Modelled from the spec: the host engine's gather (`input[indices]` on
jnp arrays) is not in `src/`; per the spec the gather "must still occur at
the clamped/fixed index even for invalid positions, since gathering must
not read out of bounds", so the index actually read on an axis is the raw
index clamped into `[0, size - 1]`. -/
def gatherIndex (size : ℕ) (i : ℤ) : ℕ :=
  (clip i 0 ((size : ℤ) - 1)).toNat

/-- The gather `input[indices]`: read the array at the per-axis
`gatherIndex`-resolved multi-index. -/
def NDArray.get (a : NDArray) (indices : List ℤ) : ℚ :=
  a.data ((a.shape.zip indices).map (fun si => gatherIndex si.1 si.2))

/-- Embeds the `is_valid` predicate of `_map_coordinates`: under
`constant` mode an index is valid iff `(index >= 0) & (index < size)`
(checked on the node index, before the fixer); under every other mode the
literal `True`. -/
def isValid (mode : String) (index : ℤ) (size : ℕ) : Bool :=
  if mode == "constant" then decide (0 ≤ index) && decide (index < (size : ℤ))
  else true

/-- Embeds `_nonempty_prod` (`functools.reduce(operator.mul, ...)`, which
needs a non-empty list; the `[]` case is junk, unreachable in the kernel
because a rank-0 input raises earlier). -/
def nonemptyProd (l : List ℚ) : ℚ :=
  match l with
  | [] => 1
  | x :: xs => xs.foldl (fun a b => a * b) x

/-- Embeds `_nonempty_sum` (`functools.reduce(operator.add, ...)`). -/
def nonemptySum (l : List ℚ) : ℚ :=
  match l with
  | [] => 0
  | x :: xs => xs.foldl (fun a b => a + b) x

/-- Embeds `functools.reduce(operator.and_, validities)`. -/
def nonemptyAnd (l : List Bool) : Bool :=
  match l with
  | [] => true
  | x :: xs => xs.foldl (fun a b => a && b) x

/-- Embeds `itertools.product(*valid_1d_interpolations)`: all ways of
choosing one interpolation node per axis, first axis outermost. -/
def listProd {α : Type} : List (List α) → List (List α)
  | [] => [[]]
  | l :: ls => l.flatMap (fun x => (listProd ls).map (fun c => x :: c))

/-- Embeds the per-axis node preparation loop of `_map_coordinates`: for
each `(coordinate, size)` pair and each `(index, weight)` node, record
`(fixed_index, valid, weight)`. -/
def validInterpolations (interp_fun : ℚ → List (ℤ × ℚ))
    (index_fixer : ℤ → ℤ → ℤ) (mode : String)
    (coordinates : List ℚ) (shape : List ℕ) : List (List (ℤ × Bool × ℚ)) :=
  (coordinates.zip shape).map (fun cs =>
    (interp_fun cs.1).map (fun iw =>
      (index_fixer iw.1 (cs.2 : ℤ), isValid mode iw.1 cs.2, iw.2)))

/-- Embeds one combination's contribution: `input[indices]` on the fast
path, `jnp.where(all_valid, input[indices], cval)` otherwise.  Both
branches yield the gathered value when every validity is true and `cval`
when some validity is false, which is how it is written here. -/
def comboContribution (input : NDArray) (cval : ℚ)
    (items : List (ℤ × Bool × ℚ)) : ℚ :=
  if nonemptyAnd (items.map (fun it => it.2.1)) then
    input.get (items.map (fun it => it.1))
  else cval

/-- Embeds one combination's weighted output term:
`_nonempty_prod(weights) * contribution`. -/
def comboValue (input : NDArray) (cval : ℚ)
    (items : List (ℤ × Bool × ℚ)) : ℚ :=
  nonemptyProd (items.map (fun it => it.2.2)) * comboContribution input cval items

/-- Embeds the combination loop and final sum:
`result = _nonempty_sum(outputs)`. -/
def combineRaw (input : NDArray) (cval : ℚ)
    (valid_1d : List (List (ℤ × Bool × ℚ))) : ℚ :=
  nonemptySum ((listProd valid_1d).map (comboValue input cval))

/-- Embeds the epilogue: round half away from zero when the input dtype is
integer-valued, then `astype(input.dtype)` (the identity on values for a
float dtype, and exact on the already-integral rounded value). -/
def castResult (isInt : Bool) (result : ℚ) : ℚ :=
  if isInt then ((roundHalfAwayFromZero result : ℤ) : ℚ) else result

/-- The error message of the coordinate-count check. -/
def lengthErrMsg (ncoords ndim : ℕ) : String :=
  "coordinates must be a sequence of length input.ndim, but " ++
    toString ncoords ++ " != " ++ toString ndim

/-- The error message of the mode check; it enumerates the supported set. -/
def modeErrMsg (mode : String) : String :=
  "jax.scipy.ndimage.map_coordinates does not yet support mode " ++ mode ++
    ". Currently supported modes are: constant, nearest, wrap, mirror, reflect."

/-- The error message of the order check. -/
def orderErrMsg : String :=
  "jax.scipy.ndimage.map_coordinates currently requires order<=1"

/-- The error raised for a rank-0 input: `itertools.product()` yields one
empty combination and `zip(*items)` (jax's `safe_zip` with no arguments)
fails on it. -/
def zipErrMsg : String := "safe_zip requires at least one argument"

/-- Embeds `_map_coordinates` for one output element: `coordinates` holds
this element's coordinate on each input axis.  The checks appear in source
order (coordinate count, mode, order); the rank-0 failure inside the
combination loop is surfaced just before the loop, which is otherwise
pure. -/
def mapCoordinatesPoint (input : NDArray) (coordinates : List ℚ)
    (order : ℕ) (mode : String) (cval : ℚ) : Except String ℚ :=
  let cval : ℚ := if input.isInt then ((truncInt cval : ℤ) : ℚ) else cval
  if coordinates.length ≠ input.shape.length then
    .error (lengthErrMsg coordinates.length input.shape.length)
  else
    match getIndexFixer mode with
    | none => .error (modeErrMsg mode)
    | some index_fixer =>
      match interpFunFor order with
      | none => .error orderErrMsg
      | some interp_fun =>
        if input.shape.length = 0 then .error zipErrMsg
        else
          .ok (castResult input.isInt (combineRaw input cval
            (validInterpolations interp_fun index_fixer mode coordinates
              input.shape)))

/-! Helper lemmas about the int32 cast. -/

lemma toInt32_lb (n : ℤ) : -2 ^ 31 ≤ toInt32 n := by
  unfold toInt32; omega

lemma toInt32_ub (n : ℤ) : toInt32 n < 2 ^ 31 := by
  unfold toInt32; omega

lemma toInt32_emod (n : ℤ) : (n - toInt32 n) % 2 ^ 32 = 0 := by
  unfold toInt32; omega

lemma toInt32_eq_self {n : ℤ} (h1 : -2 ^ 31 ≤ n) (h2 : n < 2 ^ 31) :
    toInt32 n = n := by
  unfold toInt32; omega

/-! Helper lemmas about round half away from zero. -/

lemma roundHalfAwayFromZero_intCast (n : ℤ) :
    roundHalfAwayFromZero (n : ℚ) = n := by
  unfold roundHalfAwayFromZero
  split
  · rw [show (n : ℚ) + 1 / 2 = 1 / 2 + (n : ℚ) by ring, Int.floor_add_int]
    norm_num
  · rw [show (n : ℚ) - 1 / 2 = -(1 / 2) + (n : ℚ) by ring, Int.ceil_add_int]
    norm_num

lemma roundHalfAwayFromZero_dist (q : ℚ) :
    q - 1 / 2 ≤ (roundHalfAwayFromZero q : ℚ) ∧
      (roundHalfAwayFromZero q : ℚ) ≤ q + 1 / 2 := by
  unfold roundHalfAwayFromZero
  split
  · constructor
    · have h := Int.lt_floor_add_one (q + 1 / 2)
      push_cast at h ⊢
      linarith
    · have h := Int.floor_le (q + 1 / 2)
      push_cast at h ⊢
      linarith
  · constructor
    · have h := Int.le_ceil (q - 1 / 2)
      push_cast at h ⊢
      linarith
    · have h := Int.ceil_lt_add_one (q - 1 / 2)
      push_cast at h ⊢
      linarith

lemma roundHalfAwayFromZero_nearest (q : ℚ) (n : ℤ) :
    |q - (roundHalfAwayFromZero q : ℚ)| ≤ |q - (n : ℚ)| := by
  obtain ⟨h1, h2⟩ := roundHalfAwayFromZero_dist q
  set r := roundHalfAwayFromZero q with hr
  rcases lt_trichotomy n r with hn | hn | hn
  · have hn1 : (n : ℚ) + 1 ≤ (r : ℚ) := by exact_mod_cast Int.add_one_le_iff.mpr hn
    have : 1 / 2 ≤ q - (n : ℚ) := by linarith
    calc |q - (r : ℚ)| ≤ 1 / 2 := abs_le.mpr ⟨by linarith, by linarith⟩
      _ ≤ q - (n : ℚ) := this
      _ ≤ |q - (n : ℚ)| := le_abs_self _
  · subst hn; exact le_refl _
  · have hn1 : (r : ℚ) + 1 ≤ (n : ℚ) := by exact_mod_cast Int.add_one_le_iff.mpr hn
    have : 1 / 2 ≤ (n : ℚ) - q := by linarith
    calc |q - (r : ℚ)| ≤ 1 / 2 := abs_le.mpr ⟨by linarith, by linarith⟩
      _ ≤ (n : ℚ) - q := this
      _ ≤ |q - (n : ℚ)| := by rw [abs_sub_comm]; exact le_abs_self _

lemma roundHalfAwayFromZero_tie_nonneg (k : ℤ) (hk : 0 ≤ k) :
    roundHalfAwayFromZero ((k : ℚ) + 1 / 2) = k + 1 := by
  have hpos : (0 : ℚ) ≤ (k : ℚ) + 1 / 2 := by
    have : (0 : ℚ) ≤ (k : ℚ) := by exact_mod_cast hk
    linarith
  unfold roundHalfAwayFromZero
  rw [if_pos hpos, show (k : ℚ) + 1 / 2 + 1 / 2 = ((k + 1 : ℤ) : ℚ) by push_cast; ring,
    Int.floor_intCast]

lemma roundHalfAwayFromZero_tie_neg (k : ℤ) (hk : k < 0) :
    roundHalfAwayFromZero ((k : ℚ) + 1 / 2) = k := by
  have hk1 : k ≤ -1 := by omega
  have hneg : ¬ (0 : ℚ) ≤ (k : ℚ) + 1 / 2 := by
    have : (k : ℚ) ≤ -1 := by exact_mod_cast hk1
    push_neg
    linarith
  unfold roundHalfAwayFromZero
  rw [if_neg hneg, show (k : ℚ) + 1 / 2 - 1 / 2 = ((k : ℤ) : ℚ) by ring,
    Int.ceil_intCast]

/-! Helper lemmas about the index fixers. -/

lemma getIndexFixer_constant :
    getIndexFixer "constant" = some (fun index _size => index) := rfl

lemma getIndexFixer_nearest :
    getIndexFixer "nearest" = some (fun index size => clip index 0 (size - 1)) := rfl

lemma getIndexFixer_wrap :
    getIndexFixer "wrap" = some (fun index size => index % size) := rfl

lemma getIndexFixer_mirror : getIndexFixer "mirror" = some mirrorIndexFixer := rfl

lemma getIndexFixer_reflect : getIndexFixer "reflect" = some reflectIndexFixer := rfl

lemma mirrorIndexFixer_def (index size : ℤ) :
    mirrorIndexFixer index size
      = |(index + (size - 1)) % (2 * (size - 1)) - (size - 1)| := rfl

lemma clip_mem (x lo hi : ℤ) (h : lo ≤ hi) :
    lo ≤ clip x lo hi ∧ clip x lo hi ≤ hi := by
  unfold clip
  constructor
  · exact le_min (le_max_right x lo) h
  · exact min_le_right _ _

lemma emod_mem (x m : ℤ) (h : 0 < m) : 0 ≤ x % m ∧ x % m ≤ m - 1 := by
  refine ⟨Int.emod_nonneg x (by omega), ?_⟩
  have := Int.emod_lt_of_pos x h
  omega

lemma mirror_mem (index size : ℤ) (h : 2 ≤ size) :
    0 ≤ mirrorIndexFixer index size ∧ mirrorIndexFixer index size ≤ size - 1 := by
  unfold mirrorIndexFixer
  have hs : (0 : ℤ) < 2 * (size - 1) := by omega
  obtain ⟨hm0, hm1⟩ := emod_mem (index + (size - 1)) (2 * (size - 1)) hs
  refine ⟨abs_nonneg _, ?_⟩
  rcases abs_cases ((index + (size - 1)) % (2 * (size - 1)) - (size - 1)) with
    ⟨he, _⟩ | ⟨he, _⟩ <;> simp only [he] <;> omega

lemma mirror_odd (x size : ℤ) :
    mirrorIndexFixer (2 * x + 1) (2 * size + 1) % 2 = 1 := by
  unfold mirrorIndexFixer
  have hdvd : (2 : ℤ) ∣ 2 * (2 * size + 1 - 1) := ⟨2 * size + 1 - 1, by ring⟩
  have hm : (2 * x + 1 + (2 * size + 1 - 1)) % (2 * (2 * size + 1 - 1)) % 2
      = (2 * x + 1 + (2 * size + 1 - 1)) % 2 :=
    Int.emod_emod_of_dvd _ hdvd
  rcases abs_cases ((2 * x + 1 + (2 * size + 1 - 1)) % (2 * (2 * size + 1 - 1))
      - (2 * size + 1 - 1)) with ⟨he, _⟩ | ⟨he, _⟩ <;> simp only [he] <;> omega

lemma reflect_mem (index size : ℤ) (h : 1 ≤ size) :
    0 ≤ reflectIndexFixer index size ∧ reflectIndexFixer index size ≤ size - 1 := by
  unfold reflectIndexFixer
  obtain ⟨hv0, hv1⟩ := mirror_mem (2 * index + 1) (2 * size + 1) (by omega)
  have hodd := mirror_odd index size
  set v := mirrorIndexFixer (2 * index + 1) (2 * size + 1) with hv
  rw [Int.fdiv_eq_ediv _ (by omega : (0 : ℤ) ≤ 2)]
  constructor
  · exact Int.ediv_nonneg (by omega) (by omega)
  · have h2 : v - 1 ≤ 2 * (size - 1) := by omega
    calc (v - 1) / 2 ≤ 2 * (size - 1) / 2 := Int.ediv_le_ediv (by omega) h2
      _ = size - 1 := Int.mul_ediv_cancel_left _ (by omega)

lemma mirror_periodic (x size : ℤ) :
    mirrorIndexFixer (x + 2 * (size - 1)) size = mirrorIndexFixer x size := by
  rw [mirrorIndexFixer_def, mirrorIndexFixer_def]
  rw [show x + 2 * (size - 1) + (size - 1)
      = x + (size - 1) + 2 * (size - 1) * 1 by ring]
  rw [Int.add_mul_emod_self_left]

lemma mirror_id_of_mem (n size : ℤ) (h0 : 0 ≤ n) (h1 : n < size) :
    mirrorIndexFixer n size = n := by
  rw [mirrorIndexFixer_def]
  rcases eq_or_lt_of_le (show n ≤ size - 1 by omega) with he | hlt
  · rcases eq_or_lt_of_le h0 with h00 | hpos
    · rw [he] at h00
      rw [he, ← h00]
      simp
    · rw [he, show size - 1 + (size - 1) = 2 * (size - 1) by ring, Int.emod_self]
      rw [abs_of_nonpos (by omega)]
      omega
  · rw [Int.emod_eq_of_lt (by omega) (by omega), abs_of_nonneg (by omega)]
    omega

lemma reflect_id_of_mem (n size : ℤ) (h0 : 0 ≤ n) (h1 : n < size) :
    reflectIndexFixer n size = n := by
  unfold reflectIndexFixer
  rw [mirror_id_of_mem (2 * n + 1) (2 * size + 1) (by omega) (by omega)]
  rw [Int.fdiv_eq_ediv _ (by omega : (0 : ℤ) ≤ 2)]
  rw [show 2 * n + 1 - 1 = 2 * n by ring]
  exact Int.mul_ediv_cancel_left _ (by omega)

/-- C1 (amended): for boundary modes `nearest`, `wrap` and `reflect` on any
axis size at least 1, and for `mirror` on any axis size at least 2, the
boundary index fixer sends every integer raw index into `[0, size - 1]`.
(For `mirror` on a size-1 axis the source reduces modulo `2*(size-1) = 0`,
which is not defined to land in range.) -/
theorem C1_nonconstant_fixers_in_range (mode : String) (f : ℤ → ℤ → ℤ)
    (size index : ℤ) (hsize : 1 ≤ size)
    (hmode : mode = "nearest" ∨ mode = "wrap" ∨ mode = "reflect" ∨
      (mode = "mirror" ∧ 2 ≤ size))
    (hf : getIndexFixer mode = some f) :
    0 ≤ f index size ∧ f index size ≤ size - 1 := by
  rcases hmode with hm | hm | hm | ⟨hm, hs2⟩
  · subst hm
    rw [getIndexFixer_nearest] at hf
    cases hf
    exact clip_mem index 0 (size - 1) (by omega)
  · subst hm
    rw [getIndexFixer_wrap] at hf
    cases hf
    exact emod_mem index size (by omega)
  · subst hm
    rw [getIndexFixer_reflect] at hf
    cases hf
    exact reflect_mem index size hsize
  · subst hm
    rw [getIndexFixer_mirror] at hf
    cases hf
    exact mirror_mem index size hs2

/-- Witness for C1 at concrete inputs: the wrap fixer at size 4, index -7
and the mirror fixer at size 4, index -5 land in `[0, 3]`. -/
theorem C1_nonconstant_fixers_in_range_witness :
    (0 ≤ (-7 : ℤ) % 4 ∧ (-7 : ℤ) % 4 ≤ 4 - 1) ∧
      (0 ≤ mirrorIndexFixer (-5) 4 ∧ mirrorIndexFixer (-5) 4 ≤ 4 - 1) := by
  constructor
  · exact C1_nonconstant_fixers_in_range "wrap" (fun index size => index % size)
      4 (-7) (by omega) (by simp) getIndexFixer_wrap
  · exact C1_nonconstant_fixers_in_range "mirror" mirrorIndexFixer
      4 (-5) (by omega) (by simp) getIndexFixer_mirror

/-- Counterexample to C1 as stated: `mirror` is a non-constant mode and an
axis size of 1 is allowed by the claim, yet the mirror fixer at raw index 2
yields 2, outside `[0, 1 - 1]` (the source computes `2 % 0` there, rendered
with Lean's convention `a % 0 = a`). -/
theorem C1_counterexample :
    getIndexFixer "mirror" = some mirrorIndexFixer ∧ (1 : ℤ) ≤ 1 ∧
      mirrorIndexFixer 2 1 = 2 ∧ ¬(mirrorIndexFixer 2 1 ≤ 1 - 1) := by
  refine ⟨getIndexFixer_mirror, by omega, by decide, by decide⟩

/-- C3: the reflect fixer equals `floor((mirror(2*index+1, 2*size+1) - 1) / 2)`,
reflect is periodic with period `2 * size`, mirror is periodic with period
`2 * (size - 1)`, and reflect duplicates the edge pixel: it maps -1 to 0 and
`size` to `size - 1`. -/
theorem C3_reflect_definition_periodicity_edges (size index : ℤ)
    (hsize : 1 ≤ size) :
    reflectIndexFixer index size
        = Int.fdiv (mirrorIndexFixer (2 * index + 1) (2 * size + 1) - 1) 2 ∧
      reflectIndexFixer (index + 2 * size) size = reflectIndexFixer index size ∧
      mirrorIndexFixer (index + 2 * (size - 1)) size = mirrorIndexFixer index size ∧
      reflectIndexFixer (-1) size = 0 ∧
      reflectIndexFixer size size = size - 1 := by
  refine ⟨rfl, ?_, mirror_periodic index size, ?_, ?_⟩
  · unfold reflectIndexFixer
    have h : 2 * (index + 2 * size) + 1
        = 2 * index + 1 + 2 * (2 * size + 1 - 1) := by ring
    rw [h, mirror_periodic (2 * index + 1) (2 * size + 1)]
  · have hm : mirrorIndexFixer (2 * (-1) + 1) (2 * size + 1) = 1 := by
      rw [mirrorIndexFixer_def]
      rw [show 2 * (-1 : ℤ) + 1 + (2 * size + 1 - 1) = 2 * size - 1 by ring]
      rw [Int.emod_eq_of_lt (by omega) (by omega), abs_of_nonpos (by omega)]
      omega
    unfold reflectIndexFixer
    rw [hm]
    rfl
  · have hm : mirrorIndexFixer (2 * size + 1) (2 * size + 1) = 2 * size - 1 := by
      rw [mirrorIndexFixer_def]
      rw [show 2 * size + 1 + (2 * size + 1 - 1)
          = 1 + 2 * (2 * size + 1 - 1) * 1 by ring]
      rw [Int.add_mul_emod_self_left, Int.emod_eq_of_lt (by omega) (by omega)]
      rw [abs_of_nonpos (by omega)]
      omega
    unfold reflectIndexFixer
    rw [hm]
    rw [show 2 * size - 1 - 1 = 2 * (size - 1) by ring]
    rw [Int.fdiv_eq_ediv _ (by omega : (0 : ℤ) ≤ 2)]
    exact Int.mul_ediv_cancel_left _ (by omega)

/-- Witness for C3 at size 3, index 5. -/
theorem C3_reflect_definition_periodicity_edges_witness :
    reflectIndexFixer 5 3
        = Int.fdiv (mirrorIndexFixer (2 * 5 + 1) (2 * 3 + 1) - 1) 2 ∧
      reflectIndexFixer (5 + 2 * 3) 3 = reflectIndexFixer 5 3 ∧
      mirrorIndexFixer (5 + 2 * (3 - 1)) 3 = mirrorIndexFixer 5 3 ∧
      reflectIndexFixer (-1) 3 = 0 ∧
      reflectIndexFixer 3 3 = 3 - 1 :=
  C3_reflect_definition_periodicity_edges 3 5 (by omega)

/-! Helper lemmas about the reduce-style folds. -/

lemma foldl_mul_eq (xs : List ℚ) (a : ℚ) :
    xs.foldl (fun x y => x * y) a = a * xs.prod := by
  induction xs generalizing a with
  | nil => simp
  | cons x xs ih => simp [ih, mul_assoc]

lemma foldl_add_eq (xs : List ℚ) (a : ℚ) :
    xs.foldl (fun x y => x + y) a = a + xs.sum := by
  induction xs generalizing a with
  | nil => simp
  | cons x xs ih => simp [ih, add_assoc]

lemma foldl_and_eq (xs : List Bool) (a : Bool) :
    xs.foldl (fun x y => x && y) a = (a && xs.all id) := by
  induction xs generalizing a with
  | nil => simp
  | cons x xs ih => simp [ih, Bool.and_assoc]

lemma nonemptyProd_eq_prod (l : List ℚ) : nonemptyProd l = l.prod := by
  cases l with
  | nil => rfl
  | cons x xs => simp [nonemptyProd, foldl_mul_eq]

lemma nonemptySum_eq_sum (l : List ℚ) : nonemptySum l = l.sum := by
  cases l with
  | nil => rfl
  | cons x xs => simp [nonemptySum, foldl_add_eq]

lemma nonemptyAnd_eq_all (l : List Bool) : nonemptyAnd l = l.all id := by
  cases l with
  | nil => rfl
  | cons x xs => simp [nonemptyAnd, foldl_and_eq]

/-- C6: for order 1 the per-axis nodes are the floor node with weight
`1 - frac` listed first, then the floor-plus-one node with weight `frac`,
where `frac = coordinate - floor(coordinate)`, and for every coordinate the
two weights sum to exactly 1. -/
theorem C6_order1_weights_sum_to_one (c : ℚ) :
    linearIndicesAndWeights c
        = [(toInt32 ⌊c⌋, 1 - (c - (⌊c⌋ : ℚ))),
           (toInt32 (toInt32 ⌊c⌋ + 1), c - (⌊c⌋ : ℚ))] ∧
      (1 - (c - (⌊c⌋ : ℚ))) + (c - (⌊c⌋ : ℚ)) = 1 ∧
      (∀ iw1 iw2 : ℤ × ℚ, linearIndicesAndWeights c = [iw1, iw2] →
        iw1.2 + iw2.2 = 1) := by
  refine ⟨rfl, by ring, ?_⟩
  intro iw1 iw2 h
  rw [show linearIndicesAndWeights c
      = [(toInt32 ⌊c⌋, 1 - (c - (⌊c⌋ : ℚ))),
         (toInt32 (toInt32 ⌊c⌋ + 1), c - (⌊c⌋ : ℚ))] from rfl] at h
  simp only [List.cons.injEq, List.nil_eq] at h
  obtain ⟨h1, h2, -⟩ := h
  rw [← h1, ← h2]
  ring

/-- Witness for C6 at the coordinate 7/2. -/
theorem C6_order1_weights_sum_to_one_witness :
    ∃ iw1 iw2 : ℤ × ℚ, linearIndicesAndWeights (7 / 2) = [iw1, iw2] ∧
      iw1.2 + iw2.2 = 1 := by
  obtain ⟨h1, -, h3⟩ := C6_order1_weights_sum_to_one (7 / 2)
  exact ⟨_, _, h1, h3 _ _ h1⟩

lemma roundHalfAwayFromZero_half : roundHalfAwayFromZero (1 / 2) = 1 := by
  unfold roundHalfAwayFromZero
  rw [if_pos (by norm_num : (0 : ℚ) ≤ 1 / 2)]
  norm_num

lemma roundHalfAwayFromZero_neg_half :
    roundHalfAwayFromZero (-(1 / 2)) = -1 := by
  unfold roundHalfAwayFromZero
  rw [if_neg (by norm_num)]
  rw [show (-(1 / 2) : ℚ) - 1 / 2 = ((-1 : ℤ) : ℚ) by norm_num]
  rw [Int.ceil_intCast]

/-- C7 (amended): for order 0 the single node carries the scalar weight 1
and its index is the coordinate rounded to the nearest integer with
half-away-from-zero tie-breaking (so k + 1/2 rounds to k + 1 for k >= 0 and
to k for k < 0; in particular 0.5 to 1 and -0.5 to -1) — provided the
rounded value fits in the signed 32-bit range the node index is cast into
(outside that range it wraps; see C10). -/
theorem C7_order0_round_half_away_from_zero (c : ℚ)
    (hlb : -2 ^ 31 ≤ roundHalfAwayFromZero c)
    (hub : roundHalfAwayFromZero c < 2 ^ 31) :
    nearestIndicesAndWeights c = [(roundHalfAwayFromZero c, 1)] ∧
      (∀ n : ℤ, |c - (roundHalfAwayFromZero c : ℚ)| ≤ |c - (n : ℚ)|) ∧
      (∀ k : ℤ, 0 ≤ k → roundHalfAwayFromZero ((k : ℚ) + 1 / 2) = k + 1) ∧
      (∀ k : ℤ, k < 0 → roundHalfAwayFromZero ((k : ℚ) + 1 / 2) = k) ∧
      roundHalfAwayFromZero (1 / 2) = 1 ∧
      roundHalfAwayFromZero (-(1 / 2)) = -1 := by
  refine ⟨?_, roundHalfAwayFromZero_nearest c, roundHalfAwayFromZero_tie_nonneg,
    roundHalfAwayFromZero_tie_neg, ?_, ?_⟩
  · unfold nearestIndicesAndWeights
    rw [toInt32_eq_self hlb hub]
  · exact roundHalfAwayFromZero_half
  · exact roundHalfAwayFromZero_neg_half

/-- Witness for C7 at the coordinate 1/2. -/
theorem C7_order0_round_half_away_from_zero_witness :
    nearestIndicesAndWeights (1 / 2) = [(1, 1)] := by
  have h := C7_order0_round_half_away_from_zero (1 / 2)
    (by rw [roundHalfAwayFromZero_half]; omega)
    (by rw [roundHalfAwayFromZero_half]; omega)
  rw [h.1, h.2.2.2.2.1]

/-- Counterexample to C7 as stated: at the coordinate 2^31 the rounded
  value is 2^31 but the node index is the int32-wrapped -2^31. -/
theorem C7_counterexample :
    roundHalfAwayFromZero ((2 : ℚ) ^ 31) = 2 ^ 31 ∧
      nearestIndicesAndWeights ((2 : ℚ) ^ 31) = [(-2 ^ 31, 1)] ∧
      (-2 ^ 31 : ℤ) ≠ 2 ^ 31 := by
  have hc : ((2 : ℚ) ^ 31) = (((2 : ℤ) ^ 31 : ℤ) : ℚ) := by push_cast; ring
  have h1 : roundHalfAwayFromZero ((2 : ℚ) ^ 31) = 2 ^ 31 := by
    rw [hc, roundHalfAwayFromZero_intCast]
  refine ⟨h1, ?_, by decide⟩
  unfold nearestIndicesAndWeights
  rw [h1]
  norm_num [toInt32]

/-- C10: order-0 and order-1 node indices are the int32 cast of the rounded
resp. floored coordinate; the cast lands in [-2^31, 2^31 - 1], is a wrap
modulo 2^32 (the cast value is congruent to the true value), is the
identity exactly on values that fit in 32 bits, and genuinely wraps
outside that range. -/
theorem C10_node_indices_wrap_modulo_int32 (c : ℚ) (n : ℤ) :
    nearestIndicesAndWeights c = [(toInt32 (roundHalfAwayFromZero c), 1)] ∧
      (linearIndicesAndWeights c).map Prod.fst
        = [toInt32 ⌊c⌋, toInt32 (toInt32 ⌊c⌋ + 1)] ∧
      -2 ^ 31 ≤ toInt32 n ∧ toInt32 n < 2 ^ 31 ∧
      (n - toInt32 n) % 2 ^ 32 = 0 ∧
      (-2 ^ 31 ≤ n → n < 2 ^ 31 → toInt32 n = n) ∧
      toInt32 (2 ^ 31) = -2 ^ 31 ∧
      toInt32 (-2 ^ 31 - 1) = 2 ^ 31 - 1 :=
  ⟨rfl, rfl, toInt32_lb n, toInt32_ub n, toInt32_emod n,
    fun h1 h2 => toInt32_eq_self h1 h2, by decide, by decide⟩

/-- Witness for C10: the cast fixes 5 and wraps 2^31. -/
theorem C10_node_indices_wrap_modulo_int32_witness :
    toInt32 5 = 5 ∧ toInt32 (2 ^ 31) = -2 ^ 31 := by
  have h := C10_node_indices_wrap_modulo_int32 0 5
  exact ⟨h.2.2.2.2.2.1 (by decide) (by decide), h.2.2.2.2.2.2.1⟩

lemma isValid_nonconstant {m : String} (h : m ≠ "constant") (i : ℤ) (s : ℕ) :
    isValid m i s = true := by
  simp [isValid, h]

lemma comboContribution_eq_cval {input : NDArray} {cval : ℚ}
    {items : List (ℤ × Bool × ℚ)} (hex : ∃ it ∈ items, it.2.1 = false) :
    comboContribution input cval items = cval := by
  obtain ⟨it, hmem, hfalse⟩ := hex
  have hall : (items.map (fun it2 => it2.2.1)).all id = false := by
    rw [List.all_eq_false]
    refine ⟨it.2.1, List.mem_map_of_mem _ hmem, ?_⟩
    simp [hfalse]
  unfold comboContribution
  rw [nonemptyAnd_eq_all, hall]
  simp

/-- C2: the gather index actually used on an axis always lies in
[0, size - 1] (so the gather never reads out of bounds, whatever the mode,
order and coordinate), non-constant modes mark every node valid, and when
some axis of a combination is invalid (possible only under constant mode)
the select replaces the gathered value by cval. -/
theorem C2_gather_in_bounds_and_select_cval (size : ℕ) (i : ℤ) (mode : String)
    (input : NDArray) (cval : ℚ) (items : List (ℤ × Bool × ℚ))
    (hsize : 1 ≤ size) :
    gatherIndex size i < size ∧
      (mode ≠ "constant" → isValid mode i size = true) ∧
      ((∃ it ∈ items, it.2.1 = false) →
        comboContribution input cval items = cval) := by
  refine ⟨?_, ?_, ?_⟩
  · obtain ⟨h1, h2⟩ := clip_mem i 0 ((size : ℤ) - 1) (by omega)
    unfold gatherIndex
    omega
  · exact fun hne => isValid_nonconstant hne i size
  · exact fun hex => comboContribution_eq_cval hex

/-- Witness for C2: a size-4 axis with raw gather index -9, and a
single-axis combination marked invalid, whose contribution is the cval 5. -/
theorem C2_gather_in_bounds_and_select_cval_witness :
    gatherIndex 4 (-9) < 4 ∧
      comboContribution ⟨[4], false, fun _ => 7⟩ (5 : ℚ)
        [((-9 : ℤ), false, (1 : ℚ))] = 5 := by
  have h := C2_gather_in_bounds_and_select_cval 4 (-9) "nearest"
    ⟨[4], false, fun _ => 7⟩ 5 [((-9 : ℤ), false, (1 : ℚ))] (by omega)
  exact ⟨h.1, h.2.2 ⟨((-9 : ℤ), false, (1 : ℚ)), by simp, rfl⟩⟩

/-! Helper lemmas for the configuration checks. -/

lemma getIndexFixer_eq_none_iff (mode : String) :
    getIndexFixer mode = none ↔
      mode ∉ (["constant", "nearest", "wrap", "mirror", "reflect"] : List String) := by
  constructor
  · intro h hmem
    fin_cases hmem <;>
      simp [getIndexFixer_constant, getIndexFixer_nearest, getIndexFixer_wrap,
        getIndexFixer_mirror, getIndexFixer_reflect] at h
  · intro hnot
    simp only [List.mem_cons, List.not_mem_nil, or_false] at hnot
    push_neg at hnot
    obtain ⟨n1, n2, n3, n4, n5⟩ := hnot
    unfold getIndexFixer INDEX_FIXERS
    rw [Option.map_eq_none', List.find?_eq_none]
    intro x hx
    simp only [List.mem_cons, List.not_mem_nil, or_false] at hx
    rcases hx with h | h | h | h | h <;> subst h <;>
      simp only [beq_iff_eq] <;>
      first
        | exact Ne.symm n1
        | exact Ne.symm n2
        | exact Ne.symm n3
        | exact Ne.symm n4
        | exact Ne.symm n5

lemma getIndexFixer_isSome_of_mem {mode : String}
    (h : mode ∈ (["constant", "nearest", "wrap", "mirror", "reflect"] : List String)) :
    ∃ f, getIndexFixer mode = some f := by
  fin_cases h <;> exact ⟨_, rfl⟩

lemma interpFunFor_eq_none_iff (order : ℕ) :
    interpFunFor order = none ↔ order ≠ 0 ∧ order ≠ 1 := by
  match order with
  | 0 => simp [interpFunFor]
  | 1 => simp [interpFunFor]
  | n + 2 => simp [interpFunFor]

lemma interpFunFor_isSome_of_le_one {order : ℕ} (h : order = 0 ∨ order = 1) :
    ∃ g, interpFunFor order = some g := by
  rcases h with h | h <;> subst h <;> exact ⟨_, rfl⟩

/-- C9 (amended): the call reports an error exactly when the coordinate
count differs from the input rank, the mode is unsupported, the order is
not 0 or 1, or the input has rank 0 (for a rank-0 input all validation
passes and the combination loop's `zip(*items)` fails); the three
configuration errors are reported with their specific messages, checked in
source order before any interpolation work, and the mode error message
enumerates the supported set. -/
theorem C9_error_iff_invalid_configuration (input : NDArray)
    (coordinates : List ℚ) (order : ℕ) (mode : String) (cval : ℚ) :
    ((mapCoordinatesPoint input coordinates order mode cval).isOk = false ↔
      (coordinates.length ≠ input.shape.length ∨
        mode ∉ (["constant", "nearest", "wrap", "mirror", "reflect"] : List String) ∨
        (order ≠ 0 ∧ order ≠ 1) ∨ input.shape = [])) ∧
      (coordinates.length ≠ input.shape.length →
        mapCoordinatesPoint input coordinates order mode cval
          = .error (lengthErrMsg coordinates.length input.shape.length)) ∧
      (coordinates.length = input.shape.length →
        mode ∉ (["constant", "nearest", "wrap", "mirror", "reflect"] : List String) →
        mapCoordinatesPoint input coordinates order mode cval
          = .error (modeErrMsg mode)) ∧
      (coordinates.length = input.shape.length →
        mode ∈ (["constant", "nearest", "wrap", "mirror", "reflect"] : List String) →
        order ≠ 0 → order ≠ 1 →
        mapCoordinatesPoint input coordinates order mode cval
          = .error orderErrMsg) ∧
      (modeErrMsg mode
        = "jax.scipy.ndimage.map_coordinates does not yet support mode " ++ mode ++
          ". Currently supported modes are: constant, nearest, wrap, mirror, reflect.") := by
  have himp2 : coordinates.length ≠ input.shape.length →
      mapCoordinatesPoint input coordinates order mode cval
        = .error (lengthErrMsg coordinates.length input.shape.length) := by
    intro h
    simp [mapCoordinatesPoint, h]
  have himp3 : coordinates.length = input.shape.length →
      mode ∉ (["constant", "nearest", "wrap", "mirror", "reflect"] : List String) →
      mapCoordinatesPoint input coordinates order mode cval
        = .error (modeErrMsg mode) := by
    intro h1 h2
    have hnone := (getIndexFixer_eq_none_iff mode).mpr h2
    simp [mapCoordinatesPoint, h1, hnone]
  have himp4 : coordinates.length = input.shape.length →
      mode ∈ (["constant", "nearest", "wrap", "mirror", "reflect"] : List String) →
      order ≠ 0 → order ≠ 1 →
      mapCoordinatesPoint input coordinates order mode cval
        = .error orderErrMsg := by
    intro h1 h2 h3 h4
    obtain ⟨f, hf⟩ := getIndexFixer_isSome_of_mem h2
    have hnone := (interpFunFor_eq_none_iff order).mpr ⟨h3, h4⟩
    simp [mapCoordinatesPoint, h1, hf, hnone]
  have himp5 : coordinates.length = input.shape.length →
      mode ∈ (["constant", "nearest", "wrap", "mirror", "reflect"] : List String) →
      (order = 0 ∨ order = 1) → input.shape = [] →
      mapCoordinatesPoint input coordinates order mode cval
        = .error zipErrMsg := by
    intro h1 h2 h3 h4
    obtain ⟨f, hf⟩ := getIndexFixer_isSome_of_mem h2
    obtain ⟨g, hg⟩ := interpFunFor_isSome_of_le_one h3
    simp [mapCoordinatesPoint, h1, hf, hg, h4]
  have hok : coordinates.length = input.shape.length →
      mode ∈ (["constant", "nearest", "wrap", "mirror", "reflect"] : List String) →
      (order = 0 ∨ order = 1) → input.shape ≠ [] →
      (mapCoordinatesPoint input coordinates order mode cval).isOk = true := by
    intro h1 h2 h3 h4
    obtain ⟨f, hf⟩ := getIndexFixer_isSome_of_mem h2
    obtain ⟨g, hg⟩ := interpFunFor_isSome_of_le_one h3
    have h5 : input.shape.length ≠ 0 := by
      simpa [List.length_eq_zero] using h4
    simp [mapCoordinatesPoint, h1, hf, hg, h5, Except.isOk, Except.toBool]
  refine ⟨⟨?_, ?_⟩, himp2, himp3, fun h1 h2 h3 h4 => himp4 h1 h2 h3 h4, rfl⟩
  · intro hfalse
    by_contra hnot
    push_neg at hnot
    obtain ⟨h1, h2, h3, h4⟩ := hnot
    have h3or : order = 0 ∨ order = 1 := by
      by_cases h0 : order = 0
      · exact Or.inl h0
      · exact Or.inr (h3 h0)
    rw [hok h1 h2 h3or h4] at hfalse
    exact Bool.noConfusion hfalse
  · intro hcase
    rcases hcase with h | h | h | h
    · rw [himp2 h]; rfl
    · by_cases h1 : coordinates.length = input.shape.length
      · rw [himp3 h1 h]; rfl
      · rw [himp2 h1]; rfl
    · by_cases h1 : coordinates.length = input.shape.length
      · by_cases h2 : mode ∈ (["constant", "nearest", "wrap", "mirror", "reflect"] :
            List String)
        · rw [himp4 h1 h2 h.1 h.2]; rfl
        · rw [himp3 h1 h2]; rfl
      · rw [himp2 h1]; rfl
    · by_cases h1 : coordinates.length = input.shape.length
      · by_cases h2 : mode ∈ (["constant", "nearest", "wrap", "mirror", "reflect"] :
            List String)
        · by_cases h3 : order = 0 ∨ order = 1
          · rw [himp5 h1 h2 h3 h]; rfl
          · push_neg at h3
            rw [himp4 h1 h2 h3.1 h3.2]; rfl
        · rw [himp3 h1 h2]; rfl
      · rw [himp2 h1]; rfl

/-- Witness for C9: order 5 on a valid 1-D configuration reports the order
error, and the same configuration with order 0 succeeds. -/
theorem C9_error_iff_invalid_configuration_witness :
    mapCoordinatesPoint ⟨[4], false, fun _ => 0⟩ [0] 5 "constant" 0
        = .error orderErrMsg ∧
      (mapCoordinatesPoint ⟨[4], false, fun _ => 0⟩ [0] 0 "constant" 0).isOk
        = true := by
  have h5 := C9_error_iff_invalid_configuration ⟨[4], false, fun _ => 0⟩ [0] 5
    "constant" 0
  have h0 := C9_error_iff_invalid_configuration ⟨[4], false, fun _ => 0⟩ [0] 0
    "constant" 0
  constructor
  · exact h5.2.2.2.1 (by simp) (by simp) (by omega) (by omega)
  · cases hb : (mapCoordinatesPoint ⟨[4], false, fun _ => 0⟩ [0] 0 "constant" 0).isOk
    · exfalso
      rcases h0.1.mp hb with h | h | h | h
      · simp at h
      · simp at h
      · omega
      · simp at h
    · rfl

/-- Counterexample to C9 as stated: a rank-0 input with zero coordinate
arrays, a supported mode and order 0 is a valid configuration by the
claim's three conditions, yet the call fails (in `zip(*items)` inside the
combination loop). -/
theorem C9_counterexample :
    (mapCoordinatesPoint ⟨[], false, fun _ => 0⟩ [] 0 "constant" 0).isOk = false ∧
      ([] : List ℚ).length = (NDArray.mk [] false (fun _ => 0)).shape.length ∧
      "constant" ∈ (["constant", "nearest", "wrap", "mirror", "reflect"] :
        List String) ∧
      (0 : ℕ) = 0 := by
  exact ⟨rfl, rfl, by simp, rfl⟩

/-- Computes the kernel on the integer-dtype input [1,2,3,4] at coordinate
1/2 with order 1 and nearest mode: the raw blend 3/2 rounds to 2. -/
lemma mapCoordinatesPoint_sample :
    mapCoordinatesPoint ⟨[4], true, fun idx => (idx.headD 0 : ℚ) + 1⟩ [1 / 2] 1
      "nearest" 0 = .ok 2 := by
  have hfl : ⌊(1 / 2 : ℚ)⌋ = 0 := by norm_num
  simp [mapCoordinatesPoint, getIndexFixer, INDEX_FIXERS, interpFunFor,
    validInterpolations, linearIndicesAndWeights, combineRaw, listProd, comboValue,
    comboContribution, nonemptyProd, nonemptySum, nonemptyAnd, isValid, NDArray.get,
    gatherIndex, clip, castResult, truncInt, toInt32, hfl, roundHalfAwayFromZero]
  norm_num [Int.fract]

/-- C8: a successful call's value has the input's dtype: for an
integer-dtype input the accumulated raw result is rounded half away from
zero and only then cast, so the returned value is an exact integer; for a
float input the cast changes nothing. -/
theorem C8_integer_dtype_rounds_then_casts (input : NDArray)
    (coordinates : List ℚ) (order : ℕ) (mode : String) (cval : ℚ) (v : ℚ)
    (hok : mapCoordinatesPoint input coordinates order mode cval = .ok v) :
    (input.isInt = true → ∃ n : ℤ, v = (n : ℚ)) ∧
      (∃ raw : ℚ, v = castResult input.isInt raw) ∧
      (∀ raw : ℚ, castResult true raw = ((roundHalfAwayFromZero raw : ℤ) : ℚ)) ∧
      (∀ raw : ℚ, castResult false raw = raw) := by
  have hv : ∃ raw : ℚ, v = castResult input.isInt raw := by
    simp only [mapCoordinatesPoint] at hok
    split at hok
    · exact Except.noConfusion hok
    · split at hok
      · exact Except.noConfusion hok
      · split at hok
        · exact Except.noConfusion hok
        · split at hok
          · exact Except.noConfusion hok
          · injection hok with h
            exact ⟨_, h.symm⟩
  refine ⟨?_, hv, fun raw => rfl, fun raw => rfl⟩
  intro hint
  obtain ⟨raw, hraw⟩ := hv
  rw [hint] at hraw
  exact ⟨roundHalfAwayFromZero raw, by rw [hraw]; rfl⟩

/-- Witness for C8: the integer-dtype sample call returns 2, an exact
integer value. -/
theorem C8_integer_dtype_rounds_then_casts_witness :
    mapCoordinatesPoint ⟨[4], true, fun idx => (idx.headD 0 : ℚ) + 1⟩ [1 / 2] 1
        "nearest" 0 = .ok 2 ∧
      ∃ n : ℤ, (2 : ℚ) = (n : ℚ) := by
  have h := C8_integer_dtype_rounds_then_casts
    ⟨[4], true, fun idx => (idx.headD 0 : ℚ) + 1⟩ [1 / 2] 1 "nearest" 0 2
    mapCoordinatesPoint_sample
  exact ⟨mapCoordinatesPoint_sample, h.1 rfl⟩

lemma listProd_map_singleton {α β : Type} (l : List α) (g : α → β) :
    listProd (l.map (fun x => [g x])) = [l.map g] := by
  induction l with
  | nil => rfl
  | cons x xs ih => simp [listProd, ih]

lemma nonemptySum_singleton (x : ℚ) : nonemptySum [x] = x := rfl

lemma isValid_constant (i : ℤ) (s : ℕ) :
    isValid "constant" i s = (decide (0 ≤ i) && decide (i < (s : ℤ))) := by
  simp [isValid]

lemma combineRaw_order0_invalid (input : NDArray) (cval : ℚ) (mode : String)
    (fixer : ℤ → ℤ → ℤ) (coordinates : List ℚ) (c : ℚ) (sz : ℕ)
    (hmem : (c, sz) ∈ coordinates.zip input.shape)
    (hinv : isValid mode (toInt32 (roundHalfAwayFromZero c)) sz = false) :
    combineRaw input cval (validInterpolations nearestIndicesAndWeights fixer mode
      coordinates input.shape) = cval := by
  unfold combineRaw validInterpolations
  simp only [nearestIndicesAndWeights, List.map_cons, List.map_nil]
  rw [listProd_map_singleton, List.map_singleton, nonemptySum_singleton]
  unfold comboValue
  have hex : ∃ it ∈ (coordinates.zip input.shape).map
      (fun cs : ℚ × ℕ =>
        ((fixer (toInt32 (roundHalfAwayFromZero cs.1)) (cs.2 : ℤ),
          isValid mode (toInt32 (roundHalfAwayFromZero cs.1)) cs.2,
          (1 : ℚ)) : ℤ × Bool × ℚ)), it.2.1 = false :=
    ⟨_, List.mem_map_of_mem
      (fun cs : ℚ × ℕ =>
        ((fixer (toInt32 (roundHalfAwayFromZero cs.1)) (cs.2 : ℤ),
          isValid mode (toInt32 (roundHalfAwayFromZero cs.1)) cs.2,
          (1 : ℚ)) : ℤ × Bool × ℚ)) hmem, hinv⟩
  rw [comboContribution_eq_cval hex]
  have h1 : nonemptyProd (((coordinates.zip input.shape).map
      (fun cs : ℚ × ℕ =>
        ((fixer (toInt32 (roundHalfAwayFromZero cs.1)) (cs.2 : ℤ),
          isValid mode (toInt32 (roundHalfAwayFromZero cs.1)) cs.2,
          (1 : ℚ)) : ℤ × Bool × ℚ))).map (fun it => it.2.2)) = 1 := by
    rw [nonemptyProd_eq_prod]
    apply List.prod_eq_one
    intro x hx
    simp only [List.map_map, List.mem_map, Function.comp] at hx
    obtain ⟨b, hb, he⟩ := hx
    exact he.symm
  rw [h1, one_mul]

/-- C4 (amended): under constant mode with order 0, sampling at a
coordinate one unit outside an axis bound (-1 below the axis, or size
above it, with that axis's size below 2^32 so the int32 cast of the
out-of-range index cannot wrap back into range) returns exactly the cval
as coerced to the input's dtype — in particular exactly cval for a float
input.  Validity under constant mode is `0 <= raw AND raw < size` computed
on the raw (unfixed) node index, and every other mode marks every index
valid. -/
theorem C4_constant_mode_one_unit_outside_gives_cval (input : NDArray)
    (coordinates : List ℚ) (cval : ℚ) (c : ℚ) (sz : ℕ)
    (hlen : coordinates.length = input.shape.length)
    (hmem : (c, sz) ∈ coordinates.zip input.shape)
    (hout : c = -1 ∨ c = (sz : ℚ))
    (hsz : (sz : ℤ) < 2 ^ 32) :
    mapCoordinatesPoint input coordinates 0 "constant" cval
        = .ok (if input.isInt then ((truncInt cval : ℤ) : ℚ) else cval) ∧
      (∀ i : ℤ, ∀ s : ℕ, isValid "constant" i s
          = (decide (0 ≤ i) && decide (i < (s : ℤ)))) ∧
      (∀ m : String, m ≠ "constant" → ∀ i : ℤ, ∀ s : ℕ, isValid m i s = true) := by
  refine ⟨?_, fun i s => isValid_constant i s,
    fun m hm i s => isValid_nonconstant hm i s⟩
  have hrank : input.shape.length ≠ 0 := by
    have hs : sz ∈ input.shape := (List.of_mem_zip hmem).2
    have hne : input.shape ≠ [] := List.ne_nil_of_mem hs
    simpa [List.length_eq_zero] using hne
  have hidx : roundHalfAwayFromZero c = -1 ∨ roundHalfAwayFromZero c = (sz : ℤ) := by
    rcases hout with hc | hc
    · left
      rw [hc, show (-1 : ℚ) = ((-1 : ℤ) : ℚ) by norm_num, roundHalfAwayFromZero_intCast]
    · right
      rw [hc, show ((sz : ℕ) : ℚ) = (((sz : ℤ) : ℤ) : ℚ) by push_cast; ring,
        roundHalfAwayFromZero_intCast]
  have hinvalid : isValid "constant" (toInt32 (roundHalfAwayFromZero c)) sz
      = false := by
    have hno : ¬(0 ≤ toInt32 (roundHalfAwayFromZero c) ∧
        toInt32 (roundHalfAwayFromZero c) < (sz : ℤ)) := by
      rcases hidx with h | h <;> rw [h] <;> unfold toInt32 <;> omega
    rw [isValid_constant]
    rcases not_and_or.mp hno with h | h
    · simp [h]
    · simp [h]
  have hker : mapCoordinatesPoint input coordinates 0 "constant" cval
      = .ok (castResult input.isInt (combineRaw input
          (if input.isInt then ((truncInt cval : ℤ) : ℚ) else cval)
          (validInterpolations nearestIndicesAndWeights (fun index _size => index)
            "constant" coordinates input.shape))) := by
    simp [mapCoordinatesPoint, hlen, getIndexFixer_constant, interpFunFor, hrank]
  rw [hker]
  rw [combineRaw_order0_invalid input
    (if input.isInt then ((truncInt cval : ℤ) : ℚ) else cval)
    "constant" (fun index _size => index) coordinates c sz hmem hinvalid]
  cases hii : input.isInt
  · simp [castResult]
  · simp [castResult, roundHalfAwayFromZero_intCast]

/-- Witness for C4: the spec's example — 1-D integer input [1,2,3,4],
coordinate -1, order 0, constant mode, cval 0 — returns exactly 0. -/
theorem C4_constant_mode_one_unit_outside_gives_cval_witness :
    mapCoordinatesPoint ⟨[4], true, fun idx => (idx.headD 0 : ℚ) + 1⟩ [-1] 0
      "constant" 0 = .ok 0 := by
  have h := C4_constant_mode_one_unit_outside_gives_cval
    ⟨[4], true, fun idx => (idx.headD 0 : ℚ) + 1⟩ [-1] 0 (-1) 4
    (by simp) (by simp) (Or.inl rfl) (by omega)
  rw [h.1]
  norm_num [truncInt]

/-- Counterexample to C4 as stated: on an axis of size 2^32 the coordinate
one unit past the last index is 2^32; its int32 cast wraps to 0, a valid
in-range index, so the call returns the input value 5, not the cval 0. -/
theorem C4_counterexample :
    mapCoordinatesPoint ⟨[2 ^ 32], false, fun _ => 5⟩ [(2 : ℚ) ^ 32] 0
        "constant" 0 = .ok 5 ∧
      (5 : ℚ) ≠ 0 ∧ ((2 : ℚ) ^ 32) = ((2 ^ 32 : ℕ) : ℚ) := by
  refine ⟨?_, by norm_num, by norm_num⟩
  have hr : roundHalfAwayFromZero ((2 : ℚ) ^ 32) = 2 ^ 32 := by
    have hc : ((2 : ℚ) ^ 32) = (((2 : ℤ) ^ 32 : ℤ) : ℚ) := by push_cast; ring
    rw [hc, roundHalfAwayFromZero_intCast]
  simp [mapCoordinatesPoint, getIndexFixer, INDEX_FIXERS, interpFunFor,
    validInterpolations, nearestIndicesAndWeights, combineRaw, listProd, comboValue,
    comboContribution, nonemptyProd, nonemptySum, nonemptyAnd, isValid, NDArray.get,
    gatherIndex, clip, castResult, toInt32, hr]


lemma isValid_true_of_mem (mode : String) (i : ℤ) (s : ℕ)
    (h0 : 0 ≤ i) (h1 : i < (s : ℤ)) : isValid mode i s = true := by
  by_cases hm : mode = "constant"
  · subst hm
    rw [isValid_constant]
    simp [h0, h1]
  · exact isValid_nonconstant hm i s

lemma fixer_id_of_mem {mode : String} {f : ℤ → ℤ → ℤ}
    (hf : getIndexFixer mode = some f) (n size : ℤ) (h0 : 0 ≤ n) (h1 : n < size) :
    f n size = n := by
  have hmem : mode ∈ (["constant", "nearest", "wrap", "mirror", "reflect"] :
      List String) := by
    by_contra hn
    rw [(getIndexFixer_eq_none_iff mode).mpr hn] at hf
    exact Option.noConfusion hf
  fin_cases hmem
  · rw [getIndexFixer_constant] at hf
    injection hf with h2
    rw [← h2]
  · rw [getIndexFixer_nearest] at hf
    injection hf with h2
    rw [← h2]
    show clip n 0 (size - 1) = n
    unfold clip
    omega
  · rw [getIndexFixer_wrap] at hf
    injection hf with h2
    rw [← h2]
    exact Int.emod_eq_of_lt h0 h1
  · rw [getIndexFixer_mirror] at hf
    injection hf with h2
    rw [← h2]
    exact mirror_id_of_mem n size h0 h1
  · rw [getIndexFixer_reflect] at hf
    injection hf with h2
    rw [← h2]
    exact reflect_id_of_mem n size h0 h1

lemma comboValue_zero_of_mem (input : NDArray) (cval : ℚ)
    (items : List (ℤ × Bool × ℚ)) (x : ℤ × Bool × ℚ)
    (hx : x ∈ items) (hw : x.2.2 = 0) :
    comboValue input cval items = 0 := by
  unfold comboValue
  have h0 : (0 : ℚ) ∈ items.map (fun it => it.2.2) := by
    rw [← hw]
    exact List.mem_map_of_mem _ hx
  rw [nonemptyProd_eq_prod, List.prod_eq_zero h0, zero_mul]

lemma nonemptyAnd_true_of_all {l : List Bool} (h : ∀ b ∈ l, b = true) :
    nonemptyAnd l = true := by
  rw [nonemptyAnd_eq_all, List.all_eq_true]
  exact fun x hx => h x hx

lemma nonemptyProd_one_of_all {l : List ℚ} (h : ∀ x ∈ l, x = 1) :
    nonemptyProd l = 1 := by
  rw [nonemptyProd_eq_prod]
  exact List.prod_eq_one h

lemma comboValue_all_valid (input : NDArray) (cval : ℚ)
    (items : List (ℤ × Bool × ℚ))
    (hv : ∀ it ∈ items, it.2.1 = true) (hw : ∀ it ∈ items, it.2.2 = 1) :
    comboValue input cval items = input.get (items.map (fun it => it.1)) := by
  unfold comboValue comboContribution
  rw [if_pos]
  · rw [nonemptyProd_one_of_all, one_mul]
    intro x hx
    simp only [List.mem_map] at hx
    obtain ⟨it, hit, he⟩ := hx
    rw [← he]
    exact hw it hit
  · rw [nonemptyAnd_true_of_all]
    intro b hb
    simp only [List.mem_map] at hb
    obtain ⟨it, hit, he⟩ := hb
    rw [← he]
    exact hv it hit

lemma sum_listProd_nice (input : NDArray) (cval : ℚ)
    (ls : List (List (ℤ × Bool × ℚ)))
    (h : ∀ l ∈ ls, ∃ hd tl, l = hd :: tl ∧ hd.2.2 = 1 ∧ ∀ x ∈ tl, x.2.2 = 0) :
    ∀ pre : List (ℤ × Bool × ℚ),
    ((listProd ls).map (fun combo => comboValue input cval (pre ++ combo))).sum
      = comboValue input cval
          (pre ++ ls.map (fun l => l.headD ((0 : ℤ), true, (0 : ℚ)))) := by
  induction ls with
  | nil => intro pre; simp [listProd]
  | cons l ls ih =>
    intro pre
    obtain ⟨hd, tl, rfl, hw1, hw0⟩ := h l (List.mem_cons_self l ls)
    have htail : ∀ l2 ∈ ls, ∃ hd2 tl2, l2 = hd2 :: tl2 ∧ hd2.2.2 = 1 ∧
        ∀ x ∈ tl2, x.2.2 = 0 :=
      fun l2 hl2 => h l2 (List.mem_cons_of_mem _ hl2)
    simp only [listProd, List.flatMap_cons, List.map_append, List.sum_append]
    have h1 : ((((listProd ls).map (fun c => hd :: c)).map
        (fun combo => comboValue input cval (pre ++ combo))).sum)
        = comboValue input cval
            ((pre ++ [hd]) ++ ls.map (fun l => l.headD ((0 : ℤ), true, (0 : ℚ)))) := by
      rw [List.map_map]
      rw [show ((fun combo => comboValue input cval (pre ++ combo)) ∘
          (fun c => hd :: c))
          = (fun c => comboValue input cval ((pre ++ [hd]) ++ c)) from
        funext fun c => by
          show comboValue input cval (pre ++ hd :: c) = _
          rw [List.append_cons]]
      exact ih htail (pre ++ [hd])
    have h2 : (((tl.flatMap (fun x => (listProd ls).map (fun c => x :: c))).map
        (fun combo => comboValue input cval (pre ++ combo))).sum) = 0 := by
      apply List.sum_eq_zero
      intro y hy
      simp only [List.mem_map, List.mem_flatMap] at hy
      obtain ⟨combo, ⟨x, hxtl, c, hc, hcombo⟩, he⟩ := hy
      subst hcombo
      rw [← he]
      exact comboValue_zero_of_mem input cval _ x
        (List.mem_append_right pre (List.mem_cons_self x c)) (hw0 x hxtl)
    rw [h1, h2, add_zero]
    simp only [List.map_cons, List.headD_cons]
    rw [← List.append_cons]

lemma linearIndicesAndWeights_def (c : ℚ) :
    linearIndicesAndWeights c
      = [(toInt32 ⌊c⌋, 1 - (c - (⌊c⌋ : ℚ))),
         (toInt32 (toInt32 ⌊c⌋ + 1), c - (⌊c⌋ : ℚ))] := rfl

lemma nearest_at_nat (n : ℕ) (h : (n : ℤ) < 2 ^ 31) :
    nearestIndicesAndWeights ((n : ℕ) : ℚ) = [(((n : ℕ) : ℤ), 1)] := by
  unfold nearestIndicesAndWeights
  rw [show ((n : ℕ) : ℚ) = (((n : ℤ) : ℤ) : ℚ) by push_cast; ring,
    roundHalfAwayFromZero_intCast, toInt32_eq_self (by omega) h]

lemma linear_at_nat (n : ℕ) (h : (n : ℤ) < 2 ^ 31) :
    linearIndicesAndWeights ((n : ℕ) : ℚ)
      = [(((n : ℕ) : ℤ), 1), (toInt32 ((n : ℤ) + 1), 0)] := by
  rw [linearIndicesAndWeights_def]
  rw [show ⌊((n : ℕ) : ℚ)⌋ = (n : ℤ) from Int.floor_natCast n,
    toInt32_eq_self (by omega) h]
  norm_num

lemma gatherIndex_id (s n : ℕ) (h : n < s) : gatherIndex s ((n : ℕ) : ℤ) = n := by
  unfold gatherIndex clip
  omega

lemma get_at_nat_indices (input : NDArray) (idx : List ℕ)
    (hlen : idx.length = input.shape.length)
    (hbound : ∀ p ∈ idx.zip input.shape, p.1 < p.2) :
    input.get ((idx.zip input.shape).map (fun p => ((p.1 : ℕ) : ℤ)))
      = input.data idx := by
  unfold NDArray.get
  congr 1
  have hswap : ∀ p ∈ input.shape.zip idx, p.2 < p.1 := by
    intro p hp
    rw [← List.zip_swap] at hp
    simp only [List.mem_map] at hp
    obtain ⟨q, hq, he⟩ := hp
    have := hbound q hq
    rw [← he]
    simpa using this
  have hidx_eq : (idx.zip input.shape).map (fun p => ((p.1 : ℕ) : ℤ))
      = idx.map (fun n => ((n : ℕ) : ℤ)) := by
    rw [show (fun p : ℕ × ℕ => ((p.1 : ℕ) : ℤ))
        = (fun n : ℕ => ((n : ℕ) : ℤ)) ∘ Prod.fst from rfl,
      ← List.map_map, List.map_fst_zip _ _ (le_of_eq hlen)]
  rw [hidx_eq, List.zip_map_right, List.map_map]
  have hpt : ∀ p ∈ input.shape.zip idx,
      ((fun si : ℕ × ℤ => gatherIndex si.1 si.2) ∘
        Prod.map id (fun n : ℕ => ((n : ℕ) : ℤ))) p = p.2 := by
    intro p hp
    have hb := hswap p hp
    show gatherIndex p.1 ((p.2 : ℕ) : ℤ) = p.2
    exact gatherIndex_id p.1 p.2 hb
  rw [List.map_congr_left hpt]
  exact List.map_snd_zip _ _ (by omega)

lemma comboValue_heads (input : NDArray) (cv : ℚ) (idx : List ℕ)
    (hlen : idx.length = input.shape.length)
    (hbound : ∀ p ∈ idx.zip input.shape, p.1 < p.2) :
    comboValue input cv ((idx.zip input.shape).map
      (fun p => ((((p.1 : ℕ) : ℤ)), true, (1 : ℚ)))) = input.data idx := by
  rw [comboValue_all_valid]
  · rw [List.map_map]
    show input.get ((idx.zip input.shape).map (fun p => ((p.1 : ℕ) : ℤ)))
      = input.data idx
    exact get_at_nat_indices input idx hlen hbound
  · intro it hit
    simp only [List.mem_map] at hit
    obtain ⟨p, hp, he⟩ := hit
    rw [← he]
  · intro it hit
    simp only [List.mem_map] at hit
    obtain ⟨p, hp, he⟩ := hit
    rw [← he]

/-- C5 (amended): for order 0 and order 1, any supported mode, and any
input of rank at least 1, sampling at coordinates that are exact integers
within `[0, axis_size - 1]` on every axis returns exactly the input
array's value at that multi-index — provided every coordinate is below
2^31 (beyond that the int32 index cast wraps, see C10) and, for an
integer-dtype input, the stored value is an integer (as an integer array's
always is). -/
theorem C5_integer_coordinate_idempotence (input : NDArray) (idx : List ℕ) (order : ℕ) (mode : String)
    (cval : ℚ) (f : ℤ → ℤ → ℤ)
    (hf : getIndexFixer mode = some f)
    (horder : order = 0 ∨ order = 1)
    (hlen : idx.length = input.shape.length)
    (hrank : input.shape ≠ [])
    (hbound : ∀ p ∈ idx.zip input.shape, p.1 < p.2)
    (hsmall : ∀ n ∈ idx, (n : ℤ) < 2 ^ 31)
    (hint : input.isInt = true → ∃ m : ℤ, input.data idx = (m : ℚ)) :
    mapCoordinatesPoint input (idx.map (fun n => ((n : ℕ) : ℚ))) order mode cval
      = .ok (input.data idx) := by
  obtain ⟨g, hg⟩ := interpFunFor_isSome_of_le_one horder
  have hrank2 : input.shape.length ≠ 0 := by
    simpa [List.length_eq_zero] using hrank
  have hcoordlen : (idx.map (fun n => ((n : ℕ) : ℚ))).length
      = input.shape.length := by
    simpa using hlen
  have hker : mapCoordinatesPoint input (idx.map (fun n => ((n : ℕ) : ℚ)))
      order mode cval
      = .ok (castResult input.isInt (combineRaw input
          (if input.isInt then ((truncInt cval : ℤ) : ℚ) else cval)
          (validInterpolations g f mode (idx.map (fun n => ((n : ℕ) : ℚ)))
            input.shape))) := by
    simp [mapCoordinatesPoint, hcoordlen, hf, hg, hrank2]
  rw [hker]
  have hzip : (idx.map (fun n => ((n : ℕ) : ℚ))).zip input.shape
      = (idx.zip input.shape).map (Prod.map (fun n => ((n : ℕ) : ℚ)) id) :=
    List.zip_map_left _ _ _
  have hcomb : combineRaw input
      (if input.isInt then ((truncInt cval : ℤ) : ℚ) else cval)
      (validInterpolations g f mode (idx.map (fun n => ((n : ℕ) : ℚ)))
        input.shape) = input.data idx := by
    rcases horder with ho | ho
    · subst ho
      have hg2 : g = nearestIndicesAndWeights := by
        simp only [interpFunFor, Option.some.injEq] at hg
        exact hg.symm
      subst hg2
      have hv1 : validInterpolations nearestIndicesAndWeights f mode
          (idx.map (fun n => ((n : ℕ) : ℚ))) input.shape
          = (idx.zip input.shape).map
              (fun p => [((((p.1 : ℕ) : ℤ)), true, (1 : ℚ))]) := by
        unfold validInterpolations
        rw [hzip, List.map_map]
        apply List.map_congr_left
        intro p hp
        have hb := hbound p hp
        have hsm := hsmall p.1 (List.of_mem_zip hp).1
        simp only [Function.comp_apply, Prod.map_fst, Prod.map_snd, id_eq]
        rw [nearest_at_nat p.1 hsm]
        simp only [List.map_cons, List.map_nil]
        rw [fixer_id_of_mem hf ((p.1 : ℕ) : ℤ) ((p.2 : ℕ) : ℤ) (by omega)
            (by exact_mod_cast hb),
          isValid_true_of_mem mode ((p.1 : ℕ) : ℤ) p.2 (by omega)
            (by exact_mod_cast hb)]
      unfold combineRaw
      rw [hv1, listProd_map_singleton, List.map_singleton, nonemptySum_singleton]
      exact comboValue_heads input _ idx hlen hbound
    · subst ho
      have hg2 : g = linearIndicesAndWeights := by
        simp only [interpFunFor, Option.some.injEq] at hg
        exact hg.symm
      subst hg2
      have hv1 : validInterpolations linearIndicesAndWeights f mode
          (idx.map (fun n => ((n : ℕ) : ℚ))) input.shape
          = (idx.zip input.shape).map
              (fun p => [((((p.1 : ℕ) : ℤ)), true, (1 : ℚ)),
                (f (toInt32 (((p.1 : ℕ) : ℤ) + 1)) ((p.2 : ℕ) : ℤ),
                 isValid mode (toInt32 (((p.1 : ℕ) : ℤ) + 1)) p.2, (0 : ℚ))]) := by
        unfold validInterpolations
        rw [hzip, List.map_map]
        apply List.map_congr_left
        intro p hp
        have hb := hbound p hp
        have hsm := hsmall p.1 (List.of_mem_zip hp).1
        simp only [Function.comp_apply, Prod.map_fst, Prod.map_snd, id_eq]
        rw [linear_at_nat p.1 hsm]
        simp only [List.map_cons, List.map_nil]
        rw [fixer_id_of_mem hf ((p.1 : ℕ) : ℤ) ((p.2 : ℕ) : ℤ) (by omega)
            (by exact_mod_cast hb),
          isValid_true_of_mem mode ((p.1 : ℕ) : ℤ) p.2 (by omega)
            (by exact_mod_cast hb)]
      unfold combineRaw
      rw [hv1, nonemptySum_eq_sum]
      have hnice : ∀ l ∈ (idx.zip input.shape).map
          (fun p => [((((p.1 : ℕ) : ℤ)), true, (1 : ℚ)),
            (f (toInt32 (((p.1 : ℕ) : ℤ) + 1)) ((p.2 : ℕ) : ℤ),
             isValid mode (toInt32 (((p.1 : ℕ) : ℤ) + 1)) p.2, (0 : ℚ))]),
          ∃ hd tl, l = hd :: tl ∧ hd.2.2 = 1 ∧ ∀ x ∈ tl, x.2.2 = 0 := by
        intro l hl
        simp only [List.mem_map] at hl
        obtain ⟨p, hp, he⟩ := hl
        refine ⟨_, _, he.symm, rfl, ?_⟩
        intro x hx
        simp only [List.mem_singleton] at hx
        rw [hx]
      have hsum := sum_listProd_nice input
        (if input.isInt then ((truncInt cval : ℤ) : ℚ) else cval) _ hnice []
      simp only [List.nil_append] at hsum
      rw [show ((listProd ((idx.zip input.shape).map
          (fun p => [((((p.1 : ℕ) : ℤ)), true, (1 : ℚ)),
            (f (toInt32 (((p.1 : ℕ) : ℤ) + 1)) ((p.2 : ℕ) : ℤ),
             isValid mode (toInt32 (((p.1 : ℕ) : ℤ) + 1)) p.2, (0 : ℚ))]))).map
          (comboValue input
            (if input.isInt then ((truncInt cval : ℤ) : ℚ) else cval))).sum
          = comboValue input
              (if input.isInt then ((truncInt cval : ℤ) : ℚ) else cval)
              (((idx.zip input.shape).map
                (fun p => [((((p.1 : ℕ) : ℤ)), true, (1 : ℚ)),
                  (f (toInt32 (((p.1 : ℕ) : ℤ) + 1)) ((p.2 : ℕ) : ℤ),
                   isValid mode (toInt32 (((p.1 : ℕ) : ℤ) + 1)) p.2,
                   (0 : ℚ))])).map
                (fun l => l.headD ((0 : ℤ), true, (0 : ℚ)))) from hsum]
      rw [List.map_map]
      show comboValue input _ ((idx.zip input.shape).map
        (fun p => ((((p.1 : ℕ) : ℤ)), true, (1 : ℚ)))) = input.data idx
      exact comboValue_heads input _ idx hlen hbound
  rw [hcomb]
  cases hii : input.isInt
  · simp [castResult]
  · obtain ⟨m, hm⟩ := hint hii
    rw [hm]
    simp [castResult, roundHalfAwayFromZero_intCast]

/-- Witness for C5: input [1,2,3,4], coordinate 2, order 1, reflect mode
returns the stored value 3. -/
theorem C5_integer_coordinate_idempotence_witness :
    mapCoordinatesPoint ⟨[4], false, fun idx => ((idx.headD 0 : ℕ) : ℚ) + 1⟩
      [((2 : ℕ) : ℚ)] 1 "reflect" 0 = .ok 3 := by
  have h := C5_integer_coordinate_idempotence
    ⟨[4], false, fun idx => ((idx.headD 0 : ℕ) : ℚ) + 1⟩ [2] 1 "reflect" 0
    reflectIndexFixer getIndexFixer_reflect (Or.inr rfl) (by simp) (by simp)
    (by decide) (by decide) (fun hc => Bool.noConfusion hc)
  have h3 : ((2 : ℚ) + 1) = 3 := by norm_num
  simpa [h3] using h

/-- Counterexample to C5 as stated: on an axis of size 2^31 + 1 the exact
integer coordinate 2^31 is within bounds, but its int32 cast wraps to
-2^31, which constant mode marks invalid, so the call returns the cval 0
instead of the stored value 5. -/
theorem C5_counterexample :
    mapCoordinatesPoint ⟨[2 ^ 31 + 1], false, fun _ => 5⟩ [(2 : ℚ) ^ 31] 0
        "constant" 0 = .ok 0 ∧
      (0 : ℚ) ≠ 5 ∧ ((2 : ℚ) ^ 31) = ((2 ^ 31 : ℕ) : ℚ) ∧
      (2 ^ 31 : ℕ) < 2 ^ 31 + 1 := by
  refine ⟨?_, by norm_num, by norm_num, by omega⟩
  have hr : roundHalfAwayFromZero ((2 : ℚ) ^ 31) = 2 ^ 31 := by
    have hc : ((2 : ℚ) ^ 31) = (((2 : ℤ) ^ 31 : ℤ) : ℚ) := by push_cast; ring
    rw [hc, roundHalfAwayFromZero_intCast]
  simp [mapCoordinatesPoint, getIndexFixer, INDEX_FIXERS, interpFunFor,
    validInterpolations, nearestIndicesAndWeights, combineRaw, listProd, comboValue,
    comboContribution, nonemptyProd, nonemptySum, nonemptyAnd, isValid, NDArray.get,
    gatherIndex, clip, castResult, toInt32, hr]

end JaxNdimage
